import Mathlib

/-!
Verification of the combination search and scoring engine of
`formula_altsearch` (file `src/formula_altsearch/searcher.py`).

Modelling conventions:
* Python `dict`s (compositions, the formula database, `herb_sformulas`)
  are insertion-ordered association lists `List (String × _)`; lookup
  returns the first binding, insertion of a fresh key appends at the end,
  exactly as CPython dicts behave.
* Amounts and dosages are exact rationals `ℚ`.  The program computes with
  floats; the square root appearing in `calculate_variance` and
  `calculate_delta` is kept symbolic: the computable model returns the
  *square* of those quantities and theorems apply `Real.sqrt` to it.
* The scipy SLSQP minimizer called by `find_best_dosages` is external to
  the repository; it is abstracted as a `Fitter` oracle mapping a
  combination and an initial guess to `none` (the "unable to fit"
  `ValueError`) or `some (dosages, delta)`.  All pipeline theorems are
  proved for every oracle, hence in particular for scipy's.
* The float value of the cached `self.variance` is likewise carried as an
  abstract rational parameter `vr` wherever the code reads it; the claims
  proved about the pipeline hold for every value of `vr`.
-/

namespace FormulaAltsearch

/-- `m.get(k, d)` on an insertion-ordered dict modelled as an association
list: value of the first binding of `k`, else the default `d`. -/
def getD (m : List (String × ℚ)) (k : String) (d : ℚ) : ℚ :=
  match m.lookup k with
  | some v => v
  | none => d

/-- `k in m` on a dict modelled as an association list. -/
def hasKey {α : Type} (m : List (String × α)) (k : String) : Bool :=
  m.any (fun p => p.1 == k)

/-- `composition[herb] = composition.get(herb, 0) + v`: update the first
binding in place if the key is present, otherwise append a new binding at
the end (CPython dict semantics). -/
def setAdd : List (String × ℚ) → String → ℚ → List (String × ℚ)
  | [], h, v => [(h, v)]
  | (k, a) :: rest, h, v =>
    if k = h then (k, a + v) :: rest else (k, a) :: setAdd rest h v

/-- `hsf.setdefault(h, []).append(item)`: append `item` to the list bound
to `h`, creating the binding at the end of the dict when missing. -/
def appendEntry : List (String × List String) → String → String → List (String × List String)
  | [], h, it => [(h, [it])]
  | (k, l) :: rest, h, it =>
    if k = h then (k, l ++ [it]) :: rest else (k, l) :: appendEntry rest h it

/-- Round-half-to-even on a rational, the rounding mode of `np.round`. -/
def roundHalfEven (q : ℚ) : ℤ :=
  let f := ⌊q⌋
  let r := q - f
  if r < 1/2 then f
  else if 1/2 < r then f + 1
  else if f % 2 = 0 then f else f + 1

/-- `np.round(q, places)`: scale, round half to even, unscale. -/
def roundTo (places : ℕ) (q : ℚ) : ℚ :=
  (roundHalfEven (q * 10 ^ places) : ℚ) / 10 ^ places

/-- The per-search parameters held by `FormulaSearcher.__init__`
(`searcher.py` lines 60–68): database, target composition, exclusion set
and the tuning knobs. -/
structure SearcherCtx where
  database : List (String × List (String × ℚ))
  target_composition : List (String × ℚ)
  excludes : List String
  max_cformulas : ℕ
  max_sformulas : ℕ
  penalty_factor : ℚ
  places : ℕ

/-- `FormulaSearcher._compute_related_formulas` (lines 137–154): one pass
over the database, skipping excluded items and items sharing no
strictly-positive-valued herb with the target; items with more than one
component go to `cformulas`, the rest to `sformulas` while each of their
herbs is appended to `herb_sformulas`.  Returns
`(cformulas, sformulas, herb_sformulas)` (the first two are the ordered
key lists of the dicts the code builds). -/
def _compute_related_formulas (db : List (String × List (String × ℚ)))
    (target : List (String × ℚ)) (excludes : List String) :
    List String × List String × List (String × List String) :=
  db.foldl
    (fun acc item =>
      let (cf, sf, hsf) := acc
      let (name, composition) := item
      if name ∈ excludes then (cf, sf, hsf)
      else if ¬ composition.any (fun p => decide (getD target p.1 0 ≠ 0)) then (cf, sf, hsf)
      else if composition.length > 1 then (cf ++ [name], sf, hsf)
      else (cf, sf ++ [name],
            composition.foldl (fun hsf p => appendEntry hsf p.1 name) hsf))
    ([], [], [])

/-- The `cformulas` ordered key list derived from a context. -/
def cformulas (c : SearcherCtx) : List String :=
  (_compute_related_formulas c.database c.target_composition c.excludes).1

/-- The `sformulas` ordered key list derived from a context. -/
def sformulas (c : SearcherCtx) : List String :=
  (_compute_related_formulas c.database c.target_composition c.excludes).2.1

/-- The `herb_sformulas` dict derived from a context. -/
def herb_sformulas (c : SearcherCtx) : List (String × List String) :=
  (_compute_related_formulas c.database c.target_composition c.excludes).2.2

/-- `self.database[formula]`; combinations are always drawn from the
database, so the `KeyError` case is modelled by the empty composition. -/
def dbGet (db : List (String × List (String × ℚ))) (f : String) : List (String × ℚ) :=
  match db.lookup f with
  | some comp => comp
  | none => []

/-- `FormulaSearcher.get_formula_composition` (lines 156–161): weighted
sum of the combination's compositions under the dosage vector, built up
by dict accumulation. -/
def get_formula_composition (db : List (String × List (String × ℚ)))
    (formulas : List String) (dosages : List ℚ) : List (String × ℚ) :=
  (formulas.zip dosages).foldl
    (fun comp fd =>
      (dbGet db fd.1).foldl (fun comp p => setAdd comp p.1 (p.2 * fd.2)) comp)
    []

/-- The square of `FormulaSearcher.calculate_variance` (lines 163–164):
sum of the squared amounts.  The code returns its square root. -/
def calculate_variance_sq (composition : List (String × ℚ)) : ℚ :=
  (composition.map (fun p => p.2 ^ 2)).sum

/-- The square of `FormulaSearcher.calculate_delta` (lines 166–196): the
target loop adds `(target_amount - combined_amount)^2`, the second loop
adds `(amount * penalty_factor)^2` for combined herbs outside the target.
The code returns the square root of this value. -/
def calculate_delta_sq (db : List (String × List (String × ℚ))) (penalty_factor : ℚ)
    (target : List (String × ℚ)) (x : List ℚ) (combo : List String) : ℚ :=
  let combined := get_formula_composition db combo x
  ((target.map (fun p => (p.2 - getD combined p.1 0) ^ 2)).sum)
    + (((combined.filter (fun p => !hasKey target p.1)).map
        (fun p => (p.2 * penalty_factor) ^ 2)).sum)

/-- The spec's distance formula (spec §4.3), squared, written from the
spec's words: `Σ_{c in target} (target[c] - combined[c])^2 +
Σ_{c in combined, c not in target} (penalty_factor * combined[c])^2`,
the sums ranging over the component names of each mapping. -/
def delta_spec_sq (db : List (String × List (String × ℚ))) (penalty_factor : ℚ)
    (target : List (String × ℚ)) (x : List ℚ) (combo : List String) : ℚ :=
  let combined := get_formula_composition db combo x
  ((target.map (fun p => (p.2 - getD combined p.1 0) ^ 2)).sum)
    + ((((combined.map Prod.fst).filter (fun h => !hasKey target h)).map
        (fun h => (penalty_factor * getD combined h 0) ^ 2)).sum)

/-- `FormulaSearcher.calculate_match_ratio` (lines 212–224):
`1.0 - delta / variance` unless the variance is zero, in which case `1.0`. -/
def calculate_match_ratio (delta variance : ℚ) : ℚ :=
  if variance ≠ 0 then 1 - delta / variance else 1

/-- The scipy `minimize` call inside `find_best_dosages`, abstracted: a
fitter receives the combination and the initial guess and either fails
(`none`, the "unable to fit" `ValueError`) or returns the fitted dosages
together with the achieved delta. -/
abbrev Fitter := List String → List ℚ → Option (List ℚ × ℚ)

/-- `FormulaSearcher.find_best_dosages` (lines 198–210): resolve the
default all-ones initial guess and consult the minimizer. -/
def find_best_dosages (fit : Fitter) (combo : List String)
    (initial_guess : Option (List ℚ)) : Option (List ℚ × ℚ) :=
  fit combo (initial_guess.getD (List.replicate combo.length 1))

/-- `FormulaSearcher.calculate_match` (lines 226–249) fused with
`_calculate_match` (lines 251–256): an empty combination short-circuits
to `((), 0.0, 100.0)`; otherwise the fitted delta is scored against the
cached variance `vr`.  The per-run memoization cache is semantically
transparent here because the fitter oracle is a pure function. -/
def calculate_match (fit : Fitter) (vr : ℚ) (combo : List String)
    (initial_guess : Option (List ℚ)) : Option (List ℚ × ℚ × ℚ) :=
  if combo = [] then some ([], 0, 100)
  else
    match find_best_dosages fit combo initial_guess with
    | none => none
    | some (dosages, delta) =>
      some (dosages, delta, calculate_match_ratio delta vr * 100)

/-- If some element of the list fails the predicate, filtering shrinks it. -/
theorem length_filter_lt_of_mem_false {α : Type} {l : List α} {p : α → Bool} {a : α}
    (ha : a ∈ l) (hpa : p a = false) : (l.filter p).length < l.length := by
  induction l with
  | nil => cases ha
  | cons x xs ih =>
    rcases List.mem_cons.mp ha with rfl | hmem
    · rw [List.filter_cons, hpa]
      exact Nat.lt_succ_of_le (List.length_filter_le p xs)
    · rw [List.filter_cons]
      cases hpx : p x
      · exact Nat.lt_succ_of_le (Nat.le_of_lt (ih hmem))
      · simpa using Nat.succ_lt_succ (ih hmem)

/-- The zero-dosage pruning loop of `FormulaSearcher.evaluate_combination`
(lines 264–278), operating on the combination zipped with its rounded
dosage vector (the two numpy arrays the code filters with one shared
mask).  Each pass either finds every dosage non-zero and stops (the
`break`), or drops the zero-dosage formulas, re-fits the reduced
combination warm-started from the surviving dosages, rounds, and
repeats.  The `while fixed_combo != _fixed_combo` guard of the source can
only exit through the `break`, because a pass that does not break
strictly shrinks the combination — which is also this definition's
termination measure. -/
def fixZeros (fit : Fitter) (vr : ℚ) (places : ℕ)
    (pairs : List (String × ℚ)) (match_pct : ℚ) : Option (List String × List ℚ × ℚ) :=
  if h : ∀ p ∈ pairs, p.2 ≠ 0 then
    some (pairs.map Prod.fst, pairs.map Prod.snd, match_pct)
  else
    let pairs' := pairs.filter (fun p => decide (p.2 ≠ 0))
    match calculate_match fit vr (pairs'.map Prod.fst) (some (pairs'.map Prod.snd)) with
    | none => none
    | some (ds2, _delta2, pct2) =>
      fixZeros fit vr places ((pairs'.map Prod.fst).zip (ds2.map (roundTo places))) pct2
termination_by pairs.length
decreasing_by
  push_neg at h
  obtain ⟨a, ha, ha0⟩ := h
  have h1 : (pairs.filter (fun p => decide (p.2 ≠ 0))).length < pairs.length :=
    length_filter_lt_of_mem_false ha (by simpa using ha0)
  simp only [List.length_zip, List.length_map]
  omega

/-- `FormulaSearcher.evaluate_combination` (lines 258–281): fit and score
the combination, round the dosages, then run the zero-dosage pruning
loop.  A `none` models the propagated `ValueError`. -/
def evaluate_combination (fit : Fitter) (vr : ℚ) (places : ℕ)
    (combo : List String) (initial_guess : Option (List ℚ)) :
    Option (List String × List ℚ × ℚ) :=
  match calculate_match fit vr combo initial_guess with
  | none => none
  | some (dosages, _delta, match_pct) =>
    fixZeros fit vr places (combo.zip (dosages.map (roundTo places))) match_pct

/-- Insert into a descending-by-value list, after all entries of greater
or equal value: models a stable descending sort. -/
def insertDesc (x : String × ℚ) : List (String × ℚ) → List (String × ℚ)
  | [] => [x]
  | y :: ys => if x.2 ≤ y.2 then y :: insertDesc x ys else x :: y :: ys

/-- `sorted(items, key=lambda item: -item[1])`: Python's stable sort by
descending value, modelled as a stable insertion sort. -/
def sortDescByVal (l : List (String × ℚ)) : List (String × ℚ) :=
  l.foldl (fun acc x => insertDesc x acc) []

/-- The `remaining_composition` dict of
`generate_combinations_for_sformulas` (lines 285–288): target minus what
the combination already supplies. -/
def remaining_composition (db : List (String × List (String × ℚ)))
    (target : List (String × ℚ)) (combo : List String) (dosages : List ℚ) :
    List (String × ℚ) :=
  let combined := get_formula_composition db combo dosages
  target.map (fun p => (p.1, p.2 - getD combined p.1 0))

/-- Lookup in `herb_sformulas`. -/
def hsfGet (hsf : List (String × List String)) (h : String) : List String :=
  (hsf.lookup h).getD []

/-- The `candidate_herbs` tuple (lines 290–294): remaining target entries
sorted by descending amount, kept when some simple formula provides the
herb and the remaining amount still rounds strictly positive. -/
def candidate_herbs (c : SearcherCtx) (combo : List String) (dosages : List ℚ) :
    List String :=
  ((sortDescByVal (remaining_composition c.database c.target_composition combo dosages)).filter
    (fun p => hasKey (herb_sformulas c) p.1 && decide (roundTo c.places p.2 > 0))).map Prod.fst

/-- Upper bound on how many simple formulas any candidate herb offers;
used only as the termination measure of the explicit stack loop. -/
def branchBound (hsf : List (String × List String)) (cands : List String) : ℕ :=
  (cands.map (fun h => (hsfGet hsf h).length)).foldr max 0

/-- Weight of one stack entry for the termination measure. -/
def entryWeight (b cap n : ℕ) : ℕ := (b + 1) ^ (cap - n)

/-- Weight of a whole stack for the termination measure. -/
def stackWeight (b cap : ℕ) (st : List (ℕ × List String)) : ℕ :=
  (st.map (fun e => entryWeight b cap e.1)).sum

theorem stackWeight_cons (b cap : ℕ) (e : ℕ × List String) (st : List (ℕ × List String)) :
    stackWeight b cap (e :: st) = entryWeight b cap e.1 + stackWeight b cap st := by
  simp [stackWeight]

theorem stackWeight_append (b cap : ℕ) (s t : List (ℕ × List String)) :
    stackWeight b cap (s ++ t) = stackWeight b cap s + stackWeight b cap t := by
  simp [stackWeight]

theorem sum_map_const {α : Type} (l : List α) (k : ℕ) :
    (l.map (fun _ => k)).sum = l.length * k := by
  induction l with
  | nil => simp
  | cons x xs ih => simp [ih, Nat.succ_mul, Nat.add_comm]

theorem le_foldr_max {a : ℕ} {l : List ℕ} (ha : a ∈ l) : a ≤ l.foldr max 0 := by
  induction l with
  | nil => cases ha
  | cons x xs ih =>
    rcases List.mem_cons.mp ha with rfl | hmem
    · exact Nat.le_max_left _ _
    · exact Nat.le_trans (ih hmem) (Nat.le_max_right _ _)

theorem entryWeight_pos (b cap n : ℕ) : 0 < entryWeight b cap n :=
  Nat.pos_pow_of_pos _ (Nat.succ_pos b)

theorem pushes_weight_lt {b cap m n : ℕ} (hm : m ≤ b) (hn : n < cap) :
    m * entryWeight b cap (n + 1) < entryWeight b cap n := by
  have hcap : cap - n = (cap - (n + 1)) + 1 := by omega
  have hx : 0 < (b + 1) ^ (cap - (n + 1)) := Nat.pos_pow_of_pos _ (Nat.succ_pos b)
  calc m * entryWeight b cap (n + 1) ≤ b * (b + 1) ^ (cap - (n + 1)) :=
        Nat.mul_le_mul_right _ hm
    _ < (b + 1) * (b + 1) ^ (cap - (n + 1)) :=
        Nat.mul_lt_mul_of_lt_of_le (Nat.lt_succ_self b) (Nat.le_refl _) hx
    _ = entryWeight b cap n := by
        rw [entryWeight, hcap, pow_succ, Nat.mul_comm]

theorem stackWeight_map_pushes (b cap n : ℕ) (combo : List String) (l : List String) :
    stackWeight b cap (l.map (fun s => (n + 1, combo ++ [s])))
      = l.length * entryWeight b cap (n + 1) := by
  induction l with
  | nil => simp [stackWeight]
  | cons x xs ih =>
    rw [List.map_cons, stackWeight_cons, ih]
    simp [List.length_cons, Nat.succ_mul, Nat.add_comm]

/-- The explicit stack loop of
`FormulaSearcher.generate_combinations_for_sformulas` (lines 297–307):
pop `(n, combo)`; while `n` is below both `max_sformulas` and the number
of candidate herbs, push one extension of `combo` per simple formula
providing herb `n` (the code appends them in reversed order so that the
LIFO pop visits them in original order — here the stack head is the top,
so they are prepended in original order); otherwise yield `combo` when it
is non-empty. -/
def sformulaStack (maxS : ℕ) (cands : List String) (hsf : List (String × List String)) :
    List (ℕ × List String) → List (List String)
  | [] => []
  | (n, combo) :: rest =>
    if h : n < maxS ∧ n < cands.length then
      sformulaStack maxS cands hsf
        (((hsfGet hsf (cands.get ⟨n, h.2⟩)).map (fun s => (n + 1, combo ++ [s]))) ++ rest)
    else
      (if combo.isEmpty then [] else [combo]) ++ sformulaStack maxS cands hsf rest
termination_by st => stackWeight (branchBound hsf cands) (min maxS cands.length) st
decreasing_by
  · obtain ⟨h1, h2⟩ := h
    rw [stackWeight_append, stackWeight_cons]
    have hb : (hsfGet hsf (cands.get ⟨n, h2⟩)).length ≤ branchBound hsf cands :=
      le_foldr_max (List.mem_map.mpr ⟨cands.get ⟨n, h2⟩, List.get_mem _ _ _, rfl⟩)
    have hn : n < min maxS cands.length := by omega
    have hgf : stackWeight (branchBound hsf cands) (min maxS cands.length)
        ((hsfGet hsf (cands.get ⟨n, h2⟩)).map (fun s => (n + 1, combo ++ [s])))
        < entryWeight (branchBound hsf cands) (min maxS cands.length) n := by
      rw [stackWeight_map_pushes]
      exact pushes_weight_lt hb hn
    have hfst : entryWeight (branchBound hsf cands) (min maxS cands.length) (n, combo).1
        = entryWeight (branchBound hsf cands) (min maxS cands.length) n := rfl
    omega
  · rw [stackWeight_cons]
    have hfst : entryWeight (branchBound hsf cands) (min maxS cands.length) (n, combo).1
        = entryWeight (branchBound hsf cands) (min maxS cands.length) n := rfl
    have := entryWeight_pos (branchBound hsf cands) (min maxS cands.length) n
    omega

/-- `FormulaSearcher.generate_combinations_for_sformulas` (lines
283–307): the full generator, started from the singleton stack
`[(0, combo)]`, collected into the list of yielded combinations. -/
def generate_combinations_for_sformulas (c : SearcherCtx)
    (combo : List String) (dosages : List ℚ) : List (List String) :=
  sformulaStack c.max_sformulas (candidate_herbs c combo dosages) (herb_sformulas c)
    [(0, combo)]

/-- The nested-loop reading of the spec (§4.5): for each of the ranked
candidate herbs in turn, branch over every simple formula providing it,
appending the choice; at the leaves yield the extended combination when
it is non-empty. -/
def cartesianExtensions (hsf : List (String × List String)) :
    List String → List String → List (List String)
  | [], combo => if combo.isEmpty then [] else [combo]
  | h :: hs, combo =>
    (hsfGet hsf h).flatMap (fun s => cartesianExtensions hsf hs (combo ++ [s]))

/-- `itertools.combinations(items, r)`: the `r`-element subsequences in
lexicographic position order. -/
def combinationsList {α : Type} : ℕ → List α → List (List α)
  | 0, _ => [[]]
  | _ + 1, [] => []
  | n + 1, x :: xs =>
    ((combinationsList n xs).map (fun c => x :: c)) ++ combinationsList (n + 1) xs

/-- `ExhaustiveFormulaSearcher.generate_combinations` (lines 310–314):
every subset of `cformulas` of size `0 .. min(len(cformulas),
max_cformulas)`, in database iteration order. -/
def generate_combinations (c : SearcherCtx) : List (List String) :=
  (List.range (min (cformulas c).length c.max_cformulas + 1)).flatMap
    (fun i => combinationsList i (cformulas c))

/-- The inner loop of `FormulaSearcher.find_matches` (lines 104–111): for
each simple-formula extension, re-evaluate it unless it is the base
combination itself (then the base evaluation is reused); a `ValueError`
(`none`) skips the extension. -/
def extLoop (fit : Fitter) (vr : ℚ) (c : SearcherCtx)
    (combo : List String) (dosages : List ℚ) (match_pct : ℚ) :
    List (ℚ × List String × List ℚ) :=
  (generate_combinations_for_sformulas c combo dosages).filterMap
    (fun ext =>
      if ext = combo then some (match_pct, combo, dosages)
      else
        match evaluate_combination fit vr c.places ext none with
        | none => none
        | some (e, ds, pct) => some (pct, e, ds))

/-- One iteration of the outer loop of `FormulaSearcher.find_matches`
(lines 94–111).  A non-empty base combination is evaluated first and a
`ValueError` (`none`) skips the whole iteration; the empty base skips
straight to the extension loop with `dosages = ()`.  In that empty case
the code's `match_pct` variable is unassigned — it is only read when an
extension equals the base combination, which never happens for the empty
base (extensions are never empty), so an arbitrary `0` stands in. -/
def processCombo (fit : Fitter) (vr : ℚ) (c : SearcherCtx)
    (combo : List String) : List (ℚ × List String × List ℚ) :=
  if combo = [] then extLoop fit vr c [] [] 0
  else
    match evaluate_combination fit vr c.places combo none with
    | none => []
    | some (c0, ds0, pct0) => extLoop fit vr c c0 ds0 pct0

/-- `FormulaSearcher.find_matches` (lines 93–111) over the list of base
combinations produced by `generate_combinations`. -/
def find_matches (fit : Fitter) (vr : ℚ) (c : SearcherCtx)
    (combos : List (List String)) : List (ℚ × List String × List ℚ) :=
  combos.flatMap (processCombo fit vr c)

/-- The seen-set recursion of `FormulaSearcher.find_unique_matches`
(lines 82–91): drop a candidate whose frozen formula set was already
emitted, otherwise emit it and remember the set. -/
def find_unique_matches_aux (seen : List (Finset String)) :
    List (ℚ × List String × List ℚ) → List (ℚ × List String × List ℚ)
  | [] => []
  | m :: rest =>
    let key := m.2.1.toFinset
    if key ∈ seen then find_unique_matches_aux seen rest
    else m :: find_unique_matches_aux (key :: seen) rest

/-- `FormulaSearcher.find_unique_matches` applied to the candidate stream
of `find_matches`, starting from an empty seen-set. -/
def find_unique_matches (ms : List (ℚ × List String × List ℚ)) :
    List (ℚ × List String × List ℚ) :=
  find_unique_matches_aux [] ms

/-! ### The lazily cached derived indices (`functools.cached_property`)

`FormulaSearcher` exposes `variance`, `cformulas`, `sformulas` and
`herb_sformulas` as `@cached_property` (lines 117–135): the first access
computes the value from the current attributes and stores it in the
instance `__dict__`; later accesses return the stored value.  The class
has no method that clears these caches, and plain assignment to
`target_composition` / `excludes` (the only way the context "changes" on
this class — it is otherwise fixed in `__init__`) does not touch the
instance `__dict__` entries.  The state machine below makes this caching
explicit.  The cached `variance` float is represented by its exact
square. -/

structure CachedSearcher where
  database : List (String × List (String × ℚ))
  target_composition : List (String × ℚ)
  excludes : List String
  cached_cformulas : Option (List String)
  cached_sformulas : Option (List String)
  cached_herb_sformulas : Option (List (String × List String))
  cached_variance_sq : Option ℚ

/-- `FormulaSearcher.__init__` (lines 60–69): stores the context; no
derived value is cached yet. -/
def mkSearcher (db : List (String × List (String × ℚ)))
    (target : List (String × ℚ)) (excludes : List String) : CachedSearcher :=
  ⟨db, target, excludes, none, none, none, none⟩

/-- The `cformulas` cached property (lines 122–125): on a cache miss,
`_compute_related_formulas` fills all three index caches; on a hit the
stored value is returned unchanged. -/
def getCformulas (s : CachedSearcher) : List String × CachedSearcher :=
  match s.cached_cformulas with
  | some v => (v, s)
  | none =>
    let r := _compute_related_formulas s.database s.target_composition s.excludes
    (r.1, { s with cached_cformulas := some r.1, cached_sformulas := some r.2.1,
                   cached_herb_sformulas := some r.2.2 })

/-- The `sformulas` cached property (lines 127–130). -/
def getSformulas (s : CachedSearcher) : List String × CachedSearcher :=
  match s.cached_sformulas with
  | some v => (v, s)
  | none =>
    let r := _compute_related_formulas s.database s.target_composition s.excludes
    (r.2.1, { s with cached_cformulas := some r.1, cached_sformulas := some r.2.1,
                     cached_herb_sformulas := some r.2.2 })

/-- The `herb_sformulas` cached property (lines 132–135). -/
def getHerbSformulas (s : CachedSearcher) : List (String × List String) × CachedSearcher :=
  match s.cached_herb_sformulas with
  | some v => (v, s)
  | none =>
    let r := _compute_related_formulas s.database s.target_composition s.excludes
    (r.2.2, { s with cached_cformulas := some r.1, cached_sformulas := some r.2.1,
                     cached_herb_sformulas := some r.2.2 })

/-- The `variance` cached property (lines 117–120), squared. -/
def getVarianceSq (s : CachedSearcher) : ℚ × CachedSearcher :=
  match s.cached_variance_sq with
  | some v => (v, s)
  | none =>
    let v := calculate_variance_sq s.target_composition
    (v, { s with cached_variance_sq := some v })

/-- Assigning `searcher.target_composition = t`: a plain attribute write;
nothing else in the class runs, in particular no cache entry is cleared. -/
def setTargetComposition (s : CachedSearcher) (t : List (String × ℚ)) : CachedSearcher :=
  { s with target_composition := t }

/-- Assigning `searcher.excludes = e`: a plain attribute write. -/
def setExcludes (s : CachedSearcher) (e : List String) : CachedSearcher :=
  { s with excludes := e }

/-! ### Beam searcher (modelled from the spec)

The repository's tests and `find_best_matches` refer to a
`BeamFormulaSearcher`, but no file under `src/` defines it — the
`searcher.py` present here ends with `ExhaustiveFormulaSearcher`.  The
definitions in this section are therefore modelled from the spec (§4.6)
and the expectations recorded in `tests/test_searcher.py`
(`TestBeamFormulaSearcher`). -/

/-- A beam candidate: `(depth, match_pct, combo, dosages)`. -/
abbrev BeamCand := ℕ × ℚ × List String × List ℚ

/-- Modelled from the spec: the per-parent `quota` of
`BeamFormulaSearcher.generate_combinations_at_depth` —
`ceil((top_n * beam_width_factor * beam_multiplier) /
number_of_parents_surviving_this_depth)`. -/
def beam_quota (top_n beam_width_factor beam_multiplier : ℚ) (num_parents : ℕ) : ℤ :=
  ⌈top_n * beam_width_factor * beam_multiplier / (num_parents : ℚ)⌉

/-- Modelled from the spec: the remaining-target map of the beam
heuristic, `remaining[c] = max(0, target[c] - combined[c])`.  The spec
additionally divides by the magnitude of this vector; that uniform
positive factor is omitted because it cancels in the cosine ranking the
map is used for. -/
def _calculate_remaining_map (db : List (String × List (String × ℚ)))
    (target : List (String × ℚ)) (combo : List String) (dosages : List ℚ) :
    List (String × ℚ) :=
  let combined := get_formula_composition db combo dosages
  (target.map (fun p => (p.1, max 0 (p.2 - getD combined p.1 0)))).filter
    (fun p => decide (p.2 ≠ 0))

/-- Modelled from the spec: a rational, order-preserving encoding of the
cosine-similarity heuristic score of one candidate formula against the
remaining map (off-target components discounted by `1 / penalty_factor`).
The cosine itself is `d / sqrt(nr * nv)`; this key is `d·|d| / (nr·nv)`,
a strictly monotone image of it, so ranking by this key is ranking by the
spec's score.  Empty remaining target or empty candidate composition
scores 0. -/
def _calculate_formula_score_key (penalty_factor : ℚ)
    (formula_comp : List (String × ℚ)) (remaining : List (String × ℚ)) : ℚ :=
  if remaining = [] ∨ formula_comp = [] then 0
  else
    let v := formula_comp.map (fun p =>
      (p.1, if hasKey remaining p.1 then p.2 else p.2 / penalty_factor))
    let d := (remaining.map (fun p => p.2 * getD v p.1 0)).sum
    let nr := (remaining.map (fun p => p.2 ^ 2)).sum
    let nv := (v.map (fun p => p.2 ^ 2)).sum
    if nr = 0 ∨ nv = 0 then 0 else d * |d| / (nr * nv)

/-- Modelled from the spec: `generate_heuristic_candidates(combo,
dosages, quota)` — score every not-yet-used compound formula against the
remaining target, rank by descending score, and keep at most `quota`;
nothing is generated when the remaining target is empty. -/
def generate_heuristic_candidates (c : SearcherCtx) (combo : List String)
    (dosages : List ℚ) (quota : ℕ) : List String :=
  let remaining := _calculate_remaining_map c.database c.target_composition combo dosages
  if remaining = [] then []
  else
    ((sortDescByVal (((cformulas c).filter (fun f => decide (f ∉ combo))).map
        (fun f => (f, _calculate_formula_score_key c.penalty_factor (dbGet c.database f)
          remaining)))).map Prod.fst).take quota

/-- Modelled from the spec: the extension formulas one parent contributes
at a depth — all unused compound formulas when `beam_multiplier = 0`
(heuristic pruning disabled), otherwise the heuristic candidates limited
by `quota`. -/
def beam_extensions (c : SearcherCtx) (beam_multiplier : ℚ) (quota : ℕ)
    (combo : List String) (dosages : List ℚ) : List String :=
  if beam_multiplier = 0 then (cformulas c).filter (fun f => decide (f ∉ combo))
  else generate_heuristic_candidates c combo dosages quota

/-- Modelled from the spec:
`BeamFormulaSearcher.generate_combinations_at_depth(depth, candidates)` —
re-emit the incoming candidates, then for every parent at the current
depth exact-fit each of its extension candidates (a failed fit skips that
extension), emitting the fitted results at depth `d + 1`. -/
def generate_combinations_at_depth (fit : Fitter) (vr : ℚ) (c : SearcherCtx)
    (top_n beam_width_factor beam_multiplier : ℚ) (d : ℕ) (cands : List BeamCand) :
    List BeamCand :=
  let parents := cands.filter (fun t => t.1 == d)
  let quota := (beam_quota top_n beam_width_factor beam_multiplier parents.length).toNat
  cands ++ parents.flatMap (fun parent =>
    (beam_extensions c beam_multiplier quota parent.2.2.1 parent.2.2.2).filterMap
      (fun f =>
        match evaluate_combination fit vr c.places (parent.2.2.1 ++ [f]) none with
        | none => none
        | some (c1, ds1, pct1) => some (d + 1, pct1, c1, ds1)))

/-- Database and target of spec Scenario 5. -/
def dbScenario5 : List (String × List (String × ℚ)) := [("甲複方", [("甲藥", 1), ("乙藥", 1)])]

/-- The C10 context: database `{'A10': {'A': 10}}` (a single simple
formula), target `{'A': 2}`, no excludes, `max_cformulas = max_sformulas
= 2`, `penalty_factor = 2`, `places = 0`. -/
def ctxC10 : SearcherCtx := ⟨[("A10", [("A", 10)])], [("A", 2)], [], 2, 2, 2, 0⟩

/-- The fitter for the C10 run: on `('A10',)` the exact optimum of
`(2 - 10·x)²` — dosage `1/5`, delta `0` — as SLSQP would find; anything
else fails. -/
def fitC10 : Fitter := fun combo _ => if combo = ["A10"] then some ([1/5], 0) else none

/-- The C9 context: a compound formula `C = {'A':1,'B':1}`, a simple
formula `SB = {'B':1}`, target `{'A':1,'B':2}`, `places = 0`. -/
def ctxC9 : SearcherCtx :=
  ⟨[("C", [("A", 1), ("B", 1)]), ("SB", [("B", 1)])], [("A", 1), ("B", 2)], [], 2, 2, 2, 0⟩

/-- The fitter for the C9 run: `('C',)` fits with dosage 1 and delta 1,
`('C','SB')` with dosages (1,1) and delta 0; everything else fails. -/
def fitC9 : Fitter := fun combo _ =>
  if combo = ["C"] then some ([1], 1)
  else if combo = ["C", "SB"] then some ([1, 1], 0) else none

/-! ### Dict invariants: the accumulated composition has unique keys and
lookup agrees with each stored entry. -/

theorem hasKey_iff {α : Type} (m : List (String × α)) (k : String) :
    hasKey m k = true ↔ k ∈ m.map Prod.fst := by
  rw [hasKey, List.any_eq_true]
  simp only [List.mem_map, beq_iff_eq]

theorem hasKey_eq_false_iff {α : Type} (m : List (String × α)) (k : String) :
    hasKey m k = false ↔ k ∉ m.map Prod.fst := by
  rw [Bool.eq_false_iff, Ne, hasKey_iff]

theorem setAdd_map_fst_of_hasKey {m : List (String × ℚ)} {h : String} (v : ℚ)
    (hk : hasKey m h = true) : (setAdd m h v).map Prod.fst = m.map Prod.fst := by
  induction m with
  | nil => simp [hasKey] at hk
  | cons p rest ih =>
    by_cases hp : p.1 = h
    · simp [setAdd, hp]
    · have hk' : hasKey rest h = true := by
        rw [hasKey_iff] at hk ⊢
        rcases (by simpa using hk : h = p.1 ∨ h ∈ rest.map Prod.fst) with hc | hc
        · exact absurd hc.symm hp
        · exact hc
      simp [setAdd, hp, ih hk']

theorem setAdd_map_fst_of_not_hasKey {m : List (String × ℚ)} {h : String} (v : ℚ)
    (hk : hasKey m h = false) : (setAdd m h v).map Prod.fst = m.map Prod.fst ++ [h] := by
  induction m with
  | nil => simp [setAdd]
  | cons p rest ih =>
    rw [hasKey_eq_false_iff] at hk
    have hp : p.1 ≠ h := fun hc => hk (by simp [hc])
    have hk' : hasKey rest h = false :=
      (hasKey_eq_false_iff _ _).mpr (fun hc => hk (by simp [hc]))
    simp [setAdd, hp, ih hk']

theorem nodup_keys_setAdd {m : List (String × ℚ)} {h : String} (v : ℚ)
    (hm : (m.map Prod.fst).Nodup) : ((setAdd m h v).map Prod.fst).Nodup := by
  cases hk : hasKey m h
  · rw [setAdd_map_fst_of_not_hasKey v hk]
    have hnot : h ∉ m.map Prod.fst := (hasKey_eq_false_iff m h).mp hk
    simpa using List.Nodup.append hm (List.nodup_singleton h)
      (by simpa [List.disjoint_singleton] using hnot)
  · rw [setAdd_map_fst_of_hasKey v hk]; exact hm

theorem nodup_keys_foldl_setAdd {β : Type} (f : β → String) (g : β → ℚ) (l : List β) :
    ∀ m : List (String × ℚ), (m.map Prod.fst).Nodup →
      ((l.foldl (fun comp b => setAdd comp (f b) (g b)) m).map Prod.fst).Nodup := by
  induction l with
  | nil => intro m hm; exact hm
  | cons x xs ih => intro m hm; exact ih _ (nodup_keys_setAdd _ hm)

theorem get_formula_composition_nodup (db : List (String × List (String × ℚ)))
    (formulas : List String) (dosages : List ℚ) :
    ((get_formula_composition db formulas dosages).map Prod.fst).Nodup := by
  rw [get_formula_composition]
  generalize formulas.zip dosages = pairs
  suffices hgen : ∀ m : List (String × ℚ), (m.map Prod.fst).Nodup →
      ((pairs.foldl
        (fun comp fd => (dbGet db fd.1).foldl
          (fun comp p => setAdd comp p.1 (p.2 * fd.2)) comp) m).map Prod.fst).Nodup by
    exact hgen [] (by simp)
  induction pairs with
  | nil => intro m hm; exact hm
  | cons x xs ih =>
    intro m hm
    exact ih _ (nodup_keys_foldl_setAdd (fun p : String × ℚ => p.1)
      (fun p : String × ℚ => p.2 * x.2) (dbGet db x.1) m hm)

theorem lookup_eq_of_mem_of_nodup {m : List (String × ℚ)}
    (hm : (m.map Prod.fst).Nodup) {h : String} {a : ℚ} (hma : (h, a) ∈ m) :
    m.lookup h = some a := by
  induction m with
  | nil => cases hma
  | cons p rest ih =>
    obtain ⟨k, b⟩ := p
    rw [List.map_cons, List.nodup_cons] at hm
    rcases List.mem_cons.mp hma with heq | hmem
    · injection heq with h1 h2
      subst h1; subst h2
      simp [List.lookup]
    · have hmemf : h ∈ rest.map Prod.fst := List.mem_map.mpr ⟨(h, a), hmem, rfl⟩
      have hk : (h == k) = false :=
        beq_eq_false_iff_ne.mpr (fun hc => hm.1 (hc ▸ hmemf))
      rw [List.lookup, hk]
      exact ih hm.2 hmem

theorem getD_eq_of_mem_of_nodup {m : List (String × ℚ)}
    (hm : (m.map Prod.fst).Nodup) {h : String} {a : ℚ} (hma : (h, a) ∈ m) (d : ℚ) :
    getD m h d = a := by
  rw [getD, lookup_eq_of_mem_of_nodup hm hma]

/-- The code's delta agrees with the spec's distance formula: shared
helper for the refinement direction of the delta claims. -/
theorem calculate_delta_sq_eq_spec (db : List (String × List (String × ℚ)))
    (pf : ℚ) (target : List (String × ℚ)) (x : List ℚ) (combo : List String) :
    calculate_delta_sq db pf target x combo = delta_spec_sq db pf target x combo := by
  have hnd := get_formula_composition_nodup db combo x
  simp only [calculate_delta_sq, delta_spec_sq]
  congr 1
  rw [List.filter_map, List.map_map]
  refine congrArg List.sum (List.map_congr_left ?_)
  intro p hp
  have hpmem : p ∈ get_formula_composition db combo x := List.mem_of_mem_filter hp
  have hget : getD (get_formula_composition db combo x) p.1 0 = p.2 :=
    getD_eq_of_mem_of_nodup hnd (by
      have : (p.1, p.2) = p := rfl
      rw [this]; exact hpmem) 0
  simp only [Function.comp_apply, hget]
  ring

/-- C1.  Against the non-empty target `{'甲藥': 5.0}` the claim (and the
spec's stated final semantics) require the empty combination to score
`delta = variance = 5` and `match% = 0`; the code's `calculate_match`
(lines 241–242) instead short-circuits every empty combination to
`dosages = (), delta = 0, match% = 100`, for every fitter, cached
variance and initial guess.  The target's variance really is `5 > 0 =
delta` and the returned percentage is `100 > 0`, so the code diverges
from the claim at this input. -/
theorem C1_empty_combo_scores_100_not_0 (fit : Fitter) (vr : ℚ) (g : Option (List ℚ)) :
    calculate_match fit vr [] g = some ([], 0, 100)
      ∧ Real.sqrt ((calculate_variance_sq [("甲藥", (5 : ℚ))] : ℚ) : ℝ) = 5
      ∧ (0 : ℚ) < 5 ∧ (0 : ℚ) < 100 := by
  refine ⟨rfl, ?_, by norm_num, by norm_num⟩
  have h25 : ((calculate_variance_sq [("甲藥", (5 : ℚ))] : ℚ) : ℝ) = 5 ^ 2 := by
    norm_num [calculate_variance_sq]
  rw [h25, Real.sqrt_sq (by norm_num : (0 : ℝ) ≤ 5)]

/-- C4.  `calculate_delta` returns the square root of the spec's formula:
the sum over target components of the squared shortfall plus the sum over
off-target combined components of the squared, penalty-amplified amount —
for every database, penalty factor, target, dosage vector and
combination.  In particular, for formula `{'甲藥':1.0,'乙藥':1.0}`,
target `{'甲藥':1.0}`, `penalty_factor = 4.0` and dosage `1`, the delta
is exactly `sqrt(0 + (1*4)^2) = 4`. -/
theorem C4_calculate_delta_matches_spec_formula (db : List (String × List (String × ℚ)))
    (pf : ℚ) (target : List (String × ℚ)) (x : List ℚ) (combo : List String) :
    Real.sqrt ((calculate_delta_sq db pf target x combo : ℚ) : ℝ)
        = Real.sqrt ((delta_spec_sq db pf target x combo : ℚ) : ℝ)
      ∧ Real.sqrt ((calculate_delta_sq dbScenario5 4 [("甲藥", 1)] [1] ["甲複方"] : ℚ) : ℝ)
        = 4 := by
  constructor
  · rw [calculate_delta_sq_eq_spec]
  · have h16 : ((calculate_delta_sq dbScenario5 4 [("甲藥", 1)] [1] ["甲複方"] : ℚ) : ℝ)
        = 4 ^ 2 := by
      simp +decide [calculate_delta_sq, dbScenario5, get_formula_composition, dbGet,
        List.lookup, setAdd, getD, hasKey, Function.comp]
    rw [h16, Real.sqrt_sq (by norm_num : (0 : ℝ) ≤ 4)]

/-- C5.  The match scorer returns `1 - delta/variance` whenever the
target variance is positive and `1` when it is zero; the pipeline's
percentage is the ratio times 100; and when the delta exceeds a positive
variance the resulting percentage is negative. -/
theorem C5_match_ratio_contract (fit : Fitter) (vr delta variance : ℚ)
    (combo : List String) (g : Option (List ℚ)) (ds : List ℚ) (dlt p : ℚ) :
    (0 < variance → calculate_match_ratio delta variance = 1 - delta / variance)
      ∧ (variance = 0 → calculate_match_ratio delta variance = 1)
      ∧ (combo ≠ [] → calculate_match fit vr combo g = some (ds, dlt, p) →
          p = calculate_match_ratio dlt vr * 100)
      ∧ (0 < variance → variance < delta → calculate_match_ratio delta variance * 100 < 0) := by
  refine ⟨?_, ?_, ?_, ?_⟩
  · intro hv
    rw [calculate_match_ratio, if_pos (ne_of_gt hv)]
  · intro hv
    rw [calculate_match_ratio, hv]
    simp
  · intro hne hcm
    rw [calculate_match, if_neg hne] at hcm
    cases hfit : find_best_dosages fit combo g with
    | none => rw [hfit] at hcm; cases hcm
    | some r =>
      rw [hfit] at hcm
      obtain ⟨r1, r2⟩ := r
      simp only [Option.some.injEq, Prod.mk.injEq] at hcm
      rcases hcm with ⟨-, h2, h3⟩
      rw [← h3, ← h2]
  · intro hv hd
    rw [calculate_match_ratio, if_pos (ne_of_gt hv)]
    have : 1 < delta / variance := (one_lt_div hv).mpr hd
    nlinarith

/-- Witness for C5 at `variance = 2`, `delta = 3` (and `variance = 0`),
with a fitter returning delta `3` for the one-formula combination, so the
pipeline percentage is `(1 - 3/2) * 100 = -50 < 0`. -/
theorem C5_match_ratio_contract_witness :
    calculate_match_ratio 3 2 = 1 - 3 / 2
      ∧ calculate_match_ratio 3 0 = 1
      ∧ (-50 : ℚ) = calculate_match_ratio 3 2 * 100
      ∧ calculate_match_ratio 3 2 * 100 < 0 := by
  have h := C5_match_ratio_contract (fun _ _ => some ([1], 3)) 2 3 2 ["X"] none [1] 3 (-50)
  exact ⟨h.1 (by norm_num), (C5_match_ratio_contract (fun _ _ => some ([1], 3)) 2 3 0
      ["X"] none [1] 3 (-50)).2.1 rfl,
    h.2.2.1 (by decide) (by norm_num [calculate_match, find_best_dosages, calculate_match_ratio]),
    h.2.2.2 (by norm_num) (by norm_num)⟩

/-- No zero survives the pruning loop: whatever `fixZeros` returns, every
dosage in it is non-zero. -/
theorem fixZeros_no_zero (fit : Fitter) (vr : ℚ) (places : ℕ) :
    ∀ (pairs : List (String × ℚ)) (pct : ℚ) (r : List String × List ℚ × ℚ),
      fixZeros fit vr places pairs pct = some r → ∀ d ∈ r.2.1, d ≠ 0 := by
  intro pairs pct
  induction pairs, pct using fixZeros.induct fit vr places with
  | case1 pairs pct hall =>
    intro r hr d hd
    rw [fixZeros, dif_pos hall] at hr
    cases hr
    obtain ⟨p, hp, rfl⟩ := List.mem_map.mp hd
    exact hall p hp
  | case2 pairs pct hnall pairs' hnone =>
    intro r hr
    rw [fixZeros, dif_neg hnall] at hr
    simp only [hnone] at hr
    cases hr
  | case3 pairs pct hnall pairs' ds2 dlt pct2 hsome ih =>
    intro r hr
    rw [fixZeros, dif_neg hnall] at hr
    simp only [hsome] at hr
    exact ih r hr

/-- C6.  The zero-dosage pruning loop of `evaluate_combination`: a pass
that does not stop strictly shrinks the combination (the loop's
termination measure, second conjunct — the model is a total function by
well-founded recursion on exactly this measure), and whatever the
function returns contains no formula whose rounded dosage is zero (the
returned dosages are the rounded ones the mask was checked on). -/
theorem C6_pruning_terminates_and_strips_zeros (fit : Fitter) (vr : ℚ) (places : ℕ)
    (combo : List String) (g : Option (List ℚ)) (r : List String × List ℚ × ℚ)
    (d : ℚ) (pairs : List (String × ℚ)) :
    (evaluate_combination fit vr places combo g = some r → d ∈ r.2.1 → d ≠ 0)
      ∧ ((¬ ∀ p ∈ pairs, p.2 ≠ 0) →
          (pairs.filter (fun p => decide (p.2 ≠ 0))).length < pairs.length) := by
  constructor
  · intro he hd
    rw [evaluate_combination] at he
    cases hm : calculate_match fit vr combo g with
    | none => rw [hm] at he; cases he
    | some t =>
      obtain ⟨ds, dlt, pct⟩ := t
      rw [hm] at he
      exact fixZeros_no_zero fit vr places _ _ r he d hd
  · intro hn
    push_neg at hn
    obtain ⟨a, ha, ha0⟩ := hn
    exact length_filter_lt_of_mem_false ha (by simpa using ha0)

/-- Witness for C6: a fitter returning dosage `2` for `('F',)` makes
`evaluate_combination` return it unpruned, and a one-element list with a
zero dosage strictly shrinks when filtered. -/
theorem C6_pruning_terminates_and_strips_zeros_witness :
    (2 : ℚ) ≠ 0 ∧ ([(("X" : String), (0 : ℚ))].filter (fun p => decide (p.2 ≠ 0))).length < 1 := by
  have h := C6_pruning_terminates_and_strips_zeros (fun _ _ => some ([2], 0)) 1 0
    ["F"] none (["F"], [2], 100) 2 [(("X" : String), (0 : ℚ))]
  refine ⟨h.1 ?_ (by simp), ?_⟩
  · have hround : roundTo 0 (2 : ℚ) = 2 := by
      norm_num [roundTo, roundHalfEven]
    have hcm : calculate_match (fun _ _ => some ([2], 0) : Fitter) 1 ["F"] none
        = some ([2], 0, 100) := by
      norm_num [calculate_match, find_best_dosages, calculate_match_ratio]
    have hzip : List.zip ["F"] (List.map (roundTo 0) [(2 : ℚ)]) = [("F", (2 : ℚ))] := by
      simp [hround]
    have hcond : ∀ p ∈ [(("F" : String), (2 : ℚ))], p.2 ≠ 0 := by
      intro p hp
      rw [List.mem_singleton] at hp
      subst hp
      norm_num
    rw [evaluate_combination, hcm]
    show fixZeros (fun _ _ => some ([2], 0) : Fitter) 1 0
      (["F"].zip (List.map (roundTo 0) [2])) 100 = some (["F"], [2], 100)
    rw [hzip, fixZeros, dif_pos hcond]
    rfl
  · exact h.2 (by
      intro hall
      exact absurd rfl (hall ("X", 0) (by simp)))

/-- The dedup recursion characterized: filtering its output at any frozen
formula set yields nothing when the set was already seen, else exactly
the first stream element carrying that set. -/
theorem find_unique_matches_aux_filter (S : Finset String) :
    ∀ (ms : List (ℚ × List String × List ℚ)) (seen : List (Finset String)),
      (find_unique_matches_aux seen ms).filter (fun m => decide (m.2.1.toFinset = S))
        = if S ∈ seen then []
          else (ms.find? (fun m => decide (m.2.1.toFinset = S))).toList := by
  intro ms
  induction ms with
  | nil => intro seen; simp [find_unique_matches_aux]
  | cons m rest ih =>
    intro seen
    by_cases hk : m.2.1.toFinset ∈ seen
    · rw [find_unique_matches_aux]
      simp only [if_pos hk]
      rw [ih seen]
      by_cases hS : S ∈ seen
      · simp [hS]
      · have hne : m.2.1.toFinset ≠ S := fun hc => hS (hc ▸ hk)
        rw [if_neg hS, if_neg hS, List.find?_cons_of_neg _ (by simpa using hne)]
    · rw [find_unique_matches_aux]
      simp only [if_neg hk]
      by_cases hS : m.2.1.toFinset = S
      · have hSseen : S ∉ seen := fun hc => hk (hS ▸ hc)
        rw [List.filter_cons_of_pos (by simpa using hS), ih (m.2.1.toFinset :: seen),
          if_pos (by rw [hS]; exact List.mem_cons_self _ _),
          if_neg hSseen, List.find?_cons_of_pos _ (by simpa using hS)]
        rfl
      · rw [List.filter_cons_of_neg (by simpa using hS), ih (m.2.1.toFinset :: seen)]
        have hmemiff : S ∈ m.2.1.toFinset :: seen ↔ S ∈ seen := by
          constructor
          · intro hc
            rcases List.mem_cons.mp hc with hc | hc
            · exact absurd hc.symm hS
            · exact hc
          · exact fun hc => List.mem_cons_of_mem _ hc
        by_cases hSseen : S ∈ seen
        · rw [if_pos (hmemiff.mpr hSseen), if_pos hSseen]
        · rw [if_neg (fun hc => hSseen (hmemiff.mp hc)), if_neg hSseen,
            List.find?_cons_of_neg _ (by simpa using hS)]

/-- C8.  `find_unique_matches` emits, among all candidates of the stream
whose combinations have the same underlying formula set `S` (frozen set
of identifiers, ignoring order and path), exactly the first one in
stream order, and drops every later one: filtering its output at `S`
gives precisely the stream's first match for `S`. -/
theorem C8_first_per_formula_set (ms : List (ℚ × List String × List ℚ)) (S : Finset String) :
    (find_unique_matches ms).filter (fun m => decide (m.2.1.toFinset = S))
      = (ms.find? (fun m => decide (m.2.1.toFinset = S))).toList := by
  rw [find_unique_matches, find_unique_matches_aux_filter]
  simp

/-- C3.  The derived indices are *not* invalidated by a context change:
`cformulas` is a `functools.cached_property` and nothing clears the
instance cache when the context attributes are reassigned.  Concretely,
for the database `{'F': {'A': 1, 'B': 1}}`: the first access under target
`{'A': 1}` computes and caches `['F']`; after the target is changed to
`{'Z': 1}` the property still answers `['F']`, while recomputing from the
current context yields `[]` — the cached value no longer agrees with the
context, contradicting the claim (and the behaviour the repository's own
tests expect of `_set_context`, a method the `src` searcher lacks). -/
theorem C3_cached_property_goes_stale :
    (getCformulas (mkSearcher [("F", [("A", 1), ("B", 1)])] [("A", 1)] [])).1 = ["F"]
      ∧ (getCformulas (setTargetComposition
          (getCformulas (mkSearcher [("F", [("A", 1), ("B", 1)])] [("A", 1)] [])).2
          [("Z", 1)])).1 = ["F"]
      ∧ (_compute_related_formulas [("F", [("A", 1), ("B", 1)])] [("Z", 1)] []).1 = [] := by
  refine ⟨?_, ?_, ?_⟩ <;>
    simp [getCformulas, mkSearcher, setTargetComposition, _compute_related_formulas,
      getD, List.lookup, appendEntry]

/-- C2.  (Beam searcher, modelled from the spec: `BeamFormulaSearcher` is
absent from `src/`.)  At each depth the per-parent heuristic candidate
list is capped at `quota = ceil((top_n * beam_width_factor *
beam_multiplier) / number_of_parents_surviving_this_depth)` (first
conjunct, with the at-depth generator shown to use exactly that quota in
the second conjunct), and `beam_multiplier = 0` disables heuristic
pruning entirely: every parent's extension list is every not-yet-used
compound formula, each sent to the exact fit (third conjunct). -/
theorem C2_beam_quota_and_multiplier_zero (fit : Fitter) (vr : ℚ) (c : SearcherCtx)
    (top_n bwf bm : ℚ) (d : ℕ) (cands : List BeamCand)
    (combo : List String) (ds : List ℚ) (q : ℕ) :
    ((generate_heuristic_candidates c combo ds q).length ≤ q)
      ∧ (generate_combinations_at_depth fit vr c top_n bwf bm d cands
          = cands ++ (cands.filter (fun t => t.1 == d)).flatMap (fun parent =>
              (beam_extensions c bm
                ((beam_quota top_n bwf bm (cands.filter (fun t => t.1 == d)).length).toNat)
                parent.2.2.1 parent.2.2.2).filterMap
                (fun f =>
                  match evaluate_combination fit vr c.places (parent.2.2.1 ++ [f]) none with
                  | none => none
                  | some (c1, ds1, pct1) => some (d + 1, pct1, c1, ds1))))
      ∧ (beam_extensions c 0 q combo ds
          = (cformulas c).filter (fun f => decide (f ∉ combo))) := by
  refine ⟨?_, rfl, ?_⟩
  · rw [generate_heuristic_candidates]
    by_cases hr : _calculate_remaining_map c.database c.target_composition combo ds = []
    · rw [if_pos hr]
      exact Nat.zero_le q
    · rw [if_neg hr]
      exact List.length_take_le _ _
  · rw [beam_extensions, if_pos rfl]

/-! ### The stable descending sort and the stack/product equivalence for
the simple-formula extension generator. -/

theorem mem_insertDesc (x y : String × ℚ) (l : List (String × ℚ)) :
    y ∈ insertDesc x l ↔ y = x ∨ y ∈ l := by
  induction l with
  | nil => simp [insertDesc]
  | cons z zs ih =>
    by_cases hc : x.2 ≤ z.2
    · simp only [insertDesc, if_pos hc, List.mem_cons, ih]
      tauto
    · simp only [insertDesc, if_neg hc, List.mem_cons]

theorem perm_insertDesc (x : String × ℚ) (l : List (String × ℚ)) :
    List.Perm (insertDesc x l) (x :: l) := by
  induction l with
  | nil => simp [insertDesc]
  | cons z zs ih =>
    by_cases hc : x.2 ≤ z.2
    · rw [insertDesc, if_pos hc]
      exact (ih.cons z).trans (List.Perm.swap x z zs)
    · rw [insertDesc, if_neg hc]

theorem sorted_insertDesc (x : String × ℚ) (l : List (String × ℚ))
    (hl : l.Sorted (fun a b => b.2 ≤ a.2)) :
    (insertDesc x l).Sorted (fun a b => b.2 ≤ a.2) := by
  induction l with
  | nil => simp [insertDesc]
  | cons z zs ih =>
    rw [List.sorted_cons] at hl
    by_cases hc : x.2 ≤ z.2
    · rw [insertDesc, if_pos hc, List.sorted_cons]
      refine ⟨?_, ih hl.2⟩
      intro y hy
      rcases (mem_insertDesc x y zs).mp hy with rfl | hmem
      · exact hc
      · exact hl.1 y hmem
    · rw [insertDesc, if_neg hc, List.sorted_cons]
      refine ⟨?_, List.sorted_cons.mpr hl⟩
      intro y hy
      rcases List.mem_cons.mp hy with rfl | hmem
      · exact le_of_lt (not_le.mp hc)
      · exact le_trans (hl.1 y hmem) (le_of_lt (not_le.mp hc))

theorem sortDescByVal_perm (l : List (String × ℚ)) : List.Perm (sortDescByVal l) l := by
  suffices hgen : ∀ acc : List (String × ℚ),
      List.Perm (l.foldl (fun acc x => insertDesc x acc) acc) (l ++ acc) by
    simpa using hgen []
  induction l with
  | nil => intro acc; simp
  | cons x xs ih =>
    intro acc
    rw [List.foldl_cons]
    exact ((ih (insertDesc x acc)).trans
      (List.Perm.append_left xs (perm_insertDesc x acc))).trans List.perm_middle

theorem sortDescByVal_sorted (l : List (String × ℚ)) :
    (sortDescByVal l).Sorted (fun a b => b.2 ≤ a.2) := by
  suffices hgen : ∀ acc : List (String × ℚ), acc.Sorted (fun a b => b.2 ≤ a.2) →
      (l.foldl (fun acc x => insertDesc x acc) acc).Sorted (fun a b => b.2 ≤ a.2) by
    exact hgen [] (by simp)
  induction l with
  | nil => intro acc hacc; exact hacc
  | cons x xs ih =>
    intro acc hacc
    rw [List.foldl_cons]
    exact ih _ (sorted_insertDesc x acc hacc)

/-- The stack machine equals, entrywise, the nested Cartesian product
over the candidate herbs still to be processed. -/
theorem sformulaStack_eq (maxS : ℕ) (cands : List String)
    (hsf : List (String × List String)) (st : List (ℕ × List String)) :
    sformulaStack maxS cands hsf st
      = st.flatMap (fun e =>
          cartesianExtensions hsf ((cands.drop e.1).take (maxS - e.1)) e.2) := by
  induction st using sformulaStack.induct maxS cands hsf with
  | case1 => simp [sformulaStack]
  | case2 n combo rest h ih =>
    rw [sformulaStack, dif_pos h, ih, List.flatMap_append, List.flatMap_cons]
    congr 1
    have hdrop : cands.drop n = cands.get ⟨n, h.2⟩ :: cands.drop (n + 1) := by
      rw [List.drop_eq_getElem_cons h.2]
      rfl
    have htake : maxS - n = (maxS - (n + 1)) + 1 := by omega
    rw [hdrop, htake, List.take_succ_cons, cartesianExtensions, List.flatMap_map]
  | case3 n combo rest h ih =>
    rw [sformulaStack, dif_neg h, ih, List.flatMap_cons]
    congr 1
    have hnil : (cands.drop n).take (maxS - n) = [] := by
      rcases Nat.lt_or_ge n maxS with hlt | hge
      · have hlen : cands.length ≤ n := by
          rcases Nat.lt_or_ge n cands.length with hlt2 | hge2
          · exact absurd ⟨hlt, hlt2⟩ h
          · exact hge2
        rw [List.drop_eq_nil_of_le hlen, List.take_nil]
      · have : maxS - n = 0 := by omega
        rw [this, List.take_zero]
    rw [hnil, cartesianExtensions]

/-- The generator started at `(0, combo)` is exactly the Cartesian
product over the first `max_sformulas` candidate herbs. -/
theorem generate_combinations_for_sformulas_eq (c : SearcherCtx)
    (combo : List String) (dosages : List ℚ) :
    generate_combinations_for_sformulas c combo dosages
      = cartesianExtensions (herb_sformulas c)
          ((candidate_herbs c combo dosages).take c.max_sformulas) combo := by
  rw [generate_combinations_for_sformulas, sformulaStack_eq]
  simp

/-- C7.  The simple-formula extension generator: the remaining target is
stably sorted by descending remaining amount (first two conjuncts: the
sorted list is descending and is a permutation of the remaining map);
`candidate_herbs` then keeps, in that order, exactly the components with
a providing simple formula and a rounded remaining amount strictly
positive (its definition, mirrored from the source); and the explicit
stack loop yields exactly the Cartesian-product extensions of the base
combination over every providing simple formula of each of the first
up-to-`max_sformulas` candidate herbs (third conjunct). -/
theorem C7_extension_generator_is_ranked_cartesian_product (c : SearcherCtx)
    (combo : List String) (dosages : List ℚ) :
    (sortDescByVal (remaining_composition c.database c.target_composition combo dosages)).Sorted
        (fun a b => b.2 ≤ a.2)
      ∧ List.Perm
          (sortDescByVal (remaining_composition c.database c.target_composition combo dosages))
          (remaining_composition c.database c.target_composition combo dosages)
      ∧ generate_combinations_for_sformulas c combo dosages
          = cartesianExtensions (herb_sformulas c)
              ((candidate_herbs c combo dosages).take c.max_sformulas) combo :=
  ⟨sortDescByVal_sorted _, sortDescByVal_perm _,
    generate_combinations_for_sformulas_eq c combo dosages⟩

/-- Every combination yielded by the Cartesian-product reading is
non-empty (the leaf guard mirrors the `if combo:` of the source). -/
theorem cartesianExtensions_pos (hsf : List (String × List String)) :
    ∀ (hs : List String) (combo l : List String),
      l ∈ cartesianExtensions hsf hs combo → 0 < l.length := by
  intro hs
  induction hs with
  | nil =>
    intro combo l hl
    rw [cartesianExtensions] at hl
    by_cases hco : combo.isEmpty = true
    · rw [if_pos hco] at hl; cases hl
    · rw [if_neg hco] at hl
      rw [List.mem_singleton] at hl
      subst hl
      rcases l with _ | ⟨a, as⟩
      · simp at hco
      · simp
  | cons h hs ih =>
    intro combo l hl
    rw [cartesianExtensions, List.mem_flatMap] at hl
    obtain ⟨s, _, hl⟩ := hl
    exact ih (combo ++ [s]) l hl

/-- C10 (amended).  `generate_combinations_for_sformulas` never yields an
empty tuple: every yielded extension has at least one formula.  (The
claim's consequence — that `find_matches` therefore never emits the empty
combination — is false; see the counterexample theorem.) -/
theorem C10_extension_generator_never_yields_empty (c : SearcherCtx)
    (combo : List String) (dosages : List ℚ) (ext : List String)
    (hext : ext ∈ generate_combinations_for_sformulas c combo dosages) :
    0 < ext.length := by
  rw [generate_combinations_for_sformulas_eq] at hext
  exact cartesianExtensions_pos _ _ _ _ hext

theorem ctxC10_candidate_herbs : candidate_herbs ctxC10 [] [] = ["A"] := by
  norm_num [candidate_herbs, remaining_composition, get_formula_composition, ctxC10,
    sortDescByVal, insertDesc, herb_sformulas, _compute_related_formulas, appendEntry,
    hasKey, getD, List.lookup, hsfGet, roundTo, roundHalfEven, Int.floor_eq_zero_iff]

theorem ctxC10_gen_sformulas :
    generate_combinations_for_sformulas ctxC10 [] [] = [["A10"]] := by
  rw [generate_combinations_for_sformulas_eq, ctxC10_candidate_herbs]
  norm_num [ctxC10, cartesianExtensions, hsfGet, herb_sformulas,
    _compute_related_formulas, appendEntry, getD, List.lookup]

/-- Witness for C10 (amended): in the C10 context the extension
`('A10',)` of the empty base combination is yielded and is non-empty. -/
theorem C10_extension_generator_never_yields_empty_witness :
    0 < (["A10"] : List String).length :=
  C10_extension_generator_never_yields_empty ctxC10 [] [] ["A10"]
    (by rw [ctxC10_gen_sformulas]; exact List.mem_singleton_self _)

theorem ctxC10_cformulas : cformulas ctxC10 = [] := by
  norm_num [cformulas, _compute_related_formulas, ctxC10, getD, List.lookup, appendEntry]

theorem ctxC10_generate_combinations : generate_combinations ctxC10 = [[]] := by
  rw [generate_combinations, ctxC10_cformulas]
  rfl

theorem ctxC10_round_fifth : roundTo 0 (1 / 5 : ℚ) = 0 := by
  have hfl : ⌊(1 / 5 : ℚ)⌋ = 0 := by
    rw [Int.floor_eq_zero_iff]
    constructor <;> norm_num
  norm_num [roundTo, roundHalfEven, hfl]

theorem ctxC10_evaluate :
    evaluate_combination fitC10 1 0 ["A10"] none = some ([], [], 100) := by
  have hcm : calculate_match fitC10 1 ["A10"] none = some ([1 / 5], 0, 100) := by
    norm_num [calculate_match, find_best_dosages, calculate_match_ratio, fitC10]
  rw [evaluate_combination, hcm]
  show fixZeros fitC10 1 0 (["A10"].zip (List.map (roundTo 0) [1 / 5])) 100
    = some ([], [], 100)
  have hzip : ["A10"].zip (List.map (roundTo 0) [(1 / 5 : ℚ)]) = [("A10", (0 : ℚ))] := by
    rw [List.map_cons, List.map_nil, ctxC10_round_fifth]
    rfl
  rw [hzip, fixZeros, dif_neg (by
    intro hall
    exact absurd rfl (hall ("A10", 0) (by simp)))]
  have hfilter : List.filter (fun p => decide (p.2 ≠ 0)) [(("A10" : String), (0 : ℚ))] = [] := by
    simp
  simp only [hfilter, List.map_nil]
  show (match calculate_match fitC10 1 [] (some []) with
    | none => none
    | some (ds2, _delta2, pct2) =>
      fixZeros fitC10 1 0 (List.zip [] (ds2.map (roundTo 0))) pct2) = some ([], [], 100)
  rw [show calculate_match fitC10 1 [] (some []) = some ([], 0, 100) from rfl]
  show fixZeros fitC10 1 0 [] 100 = some ([], [], 100)
  rw [fixZeros, dif_pos (by intro p hp; cases hp)]
  rfl

/-- C10 (counterexample).  The exhaustive pipeline *does* emit the empty
combination: with database `{'A10': {'A': 10}}`, target `{'A': 2}` and
`places = 0`, the only base combination is the empty one, its only
extension is `('A10',)`, the fit assigns it dosage `1/5` which rounds to
zero, zero-dosage pruning strips it, the re-fit of the now-empty
combination returns `((), 0, 100%)`, and `find_matches` yields exactly
`(100.0, (), ())` — a candidate with no formula, refuting the claim's
"the empty combination is never emitted". -/
theorem C10_counterexample_find_matches_emits_empty :
    find_matches fitC10 1 ctxC10 (generate_combinations ctxC10)
      = [(100, ([] : List String), ([] : List ℚ))] := by
  rw [ctxC10_generate_combinations, find_matches]
  show processCombo fitC10 1 ctxC10 [] ++ [] = [(100, [], [])]
  rw [processCombo, if_pos rfl, extLoop, ctxC10_gen_sformulas]
  have hne : (["A10"] : List String) ≠ [] := by simp
  simp only [List.filterMap_cons, List.filterMap_nil]
  rw [if_neg (by simp : ¬(["A10"] : List String) = [])]
  have hplaces : ctxC10.places = 0 := rfl
  rw [hplaces, ctxC10_evaluate]
  rfl

/-- `List.lookup` on a cons, in `if` form so that rewriting can decide
the string comparison. -/
theorem lookup_cons {β : Type} (k a : String) (v : β) (rest : List (String × β)) :
    List.lookup k ((a, v) :: rest) = if k == a then some v else List.lookup k rest := by
  rw [List.lookup]
  cases h : k == a <;> simp [h]

/-- C9.  A failing fit never aborts enumeration: `find_matches` over any
base-combination list splits around each base combination (first
conjunct, so the candidates before and after a failing one are
unaffected); a base combination whose fit raises is skipped with no
output (second conjunct); and every extension whose own fit succeeds —
reached from a successfully fitted base — appears in the match stream
(third conjunct). -/
theorem C9_failing_fit_skipped (fit : Fitter) (vr : ℚ) (c : SearcherCtx)
    (xs ys : List (List String)) (combo ext : List String)
    (e1 : List String) (ds1 : List ℚ) (pct1 : ℚ) :
    (find_matches fit vr c (xs ++ combo :: ys)
        = find_matches fit vr c xs ++ processCombo fit vr c combo ++ find_matches fit vr c ys)
      ∧ (combo ≠ [] → evaluate_combination fit vr c.places combo none = none →
          processCombo fit vr c combo = [])
      ∧ (∀ c0 ds0 pct0, combo ≠ [] →
          evaluate_combination fit vr c.places combo none = some (c0, ds0, pct0) →
          ext ∈ generate_combinations_for_sformulas c c0 ds0 → ext ≠ c0 →
          evaluate_combination fit vr c.places ext none = some (e1, ds1, pct1) →
          (pct1, e1, ds1) ∈ find_matches fit vr c (xs ++ combo :: ys)) := by
  refine ⟨?_, ?_, ?_⟩
  · simp [find_matches, List.flatMap_append, List.flatMap_cons, List.append_assoc]
  · intro h1 h2
    rw [processCombo, if_neg h1, h2]
  · intro c0 ds0 pct0 h1 h2 h3 h4 h5
    rw [find_matches, List.flatMap_append, List.flatMap_cons]
    refine List.mem_append.mpr (Or.inr (List.mem_append.mpr (Or.inl ?_)))
    rw [processCombo, if_neg h1, h2]
    simp only [extLoop]
    refine List.mem_filterMap.mpr ⟨ext, h3, ?_⟩
    rw [if_neg h4, h5]

theorem roundTo_zero_one : roundTo 0 (1 : ℚ) = 1 := by
  norm_num [roundTo, roundHalfEven, Int.floor_one]

theorem ctxC9_evaluate_base :
    evaluate_combination fitC9 2 0 ["C"] none = some (["C"], [1], 50) := by
  have hcm : calculate_match fitC9 2 ["C"] none = some ([1], 1, 50) := by
    norm_num [calculate_match, find_best_dosages, calculate_match_ratio, fitC9]
  rw [evaluate_combination, hcm]
  show fixZeros fitC9 2 0 (["C"].zip (List.map (roundTo 0) [1])) 50 = some (["C"], [1], 50)
  have hzip : ["C"].zip (List.map (roundTo 0) [(1 : ℚ)]) = [("C", (1 : ℚ))] := by
    rw [List.map_cons, List.map_nil, roundTo_zero_one]
    rfl
  rw [hzip, fixZeros, dif_pos (by
    intro p hp
    rw [List.mem_singleton] at hp
    subst hp
    norm_num)]
  rfl

theorem ctxC9_candidate_herbs : candidate_herbs ctxC9 ["C"] [1] = ["B"] := by
  norm_num +decide [candidate_herbs, remaining_composition, get_formula_composition, ctxC9,
    dbGet, setAdd, sortDescByVal, insertDesc, herb_sformulas, _compute_related_formulas,
    appendEntry, hasKey, getD, lookup_cons, hsfGet, roundTo_zero_one]

theorem ctxC9_gen_sformulas :
    generate_combinations_for_sformulas ctxC9 ["C"] [1] = [["C", "SB"]] := by
  rw [generate_combinations_for_sformulas_eq, ctxC9_candidate_herbs]
  norm_num +decide [ctxC9, cartesianExtensions, hsfGet, herb_sformulas,
    _compute_related_formulas, appendEntry, getD, lookup_cons]

theorem ctxC9_evaluate_ext :
    evaluate_combination fitC9 2 0 ["C", "SB"] none = some (["C", "SB"], [1, 1], 100) := by
  have hcm : calculate_match fitC9 2 ["C", "SB"] none = some ([1, 1], 0, 100) := by
    rw [calculate_match, if_neg (by simp : ¬(["C", "SB"] : List String) = [])]
    norm_num [find_best_dosages, calculate_match_ratio, fitC9]
  rw [evaluate_combination, hcm]
  show fixZeros fitC9 2 0 (["C", "SB"].zip (List.map (roundTo 0) [1, 1])) 100
    = some (["C", "SB"], [1, 1], 100)
  have hzip : ["C", "SB"].zip (List.map (roundTo 0) [(1 : ℚ), 1])
      = [("C", (1 : ℚ)), ("SB", (1 : ℚ))] := by
    rw [List.map_cons, List.map_cons, List.map_nil, roundTo_zero_one]
    rfl
  rw [hzip, fixZeros, dif_pos (by
    intro p hp
    rcases List.mem_cons.mp hp with rfl | hp2
    · norm_num
    · rw [List.mem_singleton] at hp2
      subst hp2
      norm_num)]
  rfl

/-- Witness for C9: in the C9 context the base `('C',)` fits with 50%,
its extension `('C','SB')` fits with 100%, and that successful candidate
is in the match stream of `find_matches` over `[('C',)]`. -/
theorem C9_failing_fit_skipped_witness :
    ((100 : ℚ), ["C", "SB"], [(1 : ℚ), 1]) ∈ find_matches fitC9 2 ctxC9 [["C"]] :=
  (C9_failing_fit_skipped fitC9 2 ctxC9 [] [] ["C"] ["C", "SB"] ["C", "SB"] [1, 1] 100).2.2
    ["C"] [1] 50 (by simp) ctxC9_evaluate_base
    (by rw [ctxC9_gen_sformulas]; exact List.mem_singleton_self _)
    (by decide) ctxC9_evaluate_ext

end FormulaAltsearch
